import Mathlib

/-!
# dirtree: a shallow embedding of `assignment2/src/dirtree.c`

The program walks directory trees, prints one row per entry and accumulates a
`struct summary`.  The embedding below follows the C source function by function.

Conventions.
* A C string is the list of its bytes before the terminating NUL (`CStr`).
* `unsigned int` fields live in `Nat` and every update is reduced modulo `2^32`;
  `unsigned long long` fields are reduced modulo `2^64`.
* The file system is a finite tree (`FsNode`): every member of a directory stream carries the
  `struct dirent` fields that `readdir` reports for it, the result of `lstat` on its path and
  the result of `opendir` on its path.  A path is kept as the list of its components; paths are
  assumed to fit `MAX_PATH_LEN`, and `malloc`/`realloc` to succeed.
* Reading the uninitialised `struct stat` after a failed `lstat`, or dereferencing the NULL
  result of `getpwuid`/`getgrgid`, is undefined behaviour; a run records this in
  `Run.defined` and is not described any further.
-/

namespace Dirtree

/-! ## Strings and libc -/

/-- C string contents: the bytes in front of the terminating NUL. -/
abbrev CStr := List Nat

/-- Bytes of an ASCII literal. -/
def cstr (s : String) : CStr := s.toList.map Char.toNat

/-- A name is a valid C string when none of its bytes is NUL. -/
def ValidName (s : CStr) : Prop := ∀ c ∈ s, c ≠ 0

instance (s : CStr) : Decidable (ValidName s) := by
  unfold ValidName; infer_instance

/-- libc `strcmp`: the difference of the first pair of differing bytes (as unsigned chars),
the end of a string reading as the NUL byte. -/
def strcmp : CStr → CStr → Int
  | [], [] => 0
  | [], b :: _ => -(b : Int)
  | a :: _, [] => (a : Int)
  | a :: s, b :: t => if a = b then strcmp s t else (a : Int) - (b : Int)

/-- `unsigned int` arithmetic is modulo `2^32`. -/
def UINT_MOD : Nat := 2 ^ 32

/-- `unsigned long long` arithmetic is modulo `2^64`. -/
def ULL_MOD : Nat := 2 ^ 64

/-- What `%d` shows for an `unsigned int` argument: the same 32 bits read as `int`. -/
def to_int (u : Nat) : Int :=
  if u % UINT_MOD < 2 ^ 31 then ((u % UINT_MOD : Nat) : Int) else ((u % UINT_MOD : Nat) : Int) - 2 ^ 32

/-- Decimal digits of a natural number, as bytes. -/
def dec (n : Nat) : CStr := (Nat.toDigits 10 n).map Char.toNat

/-- The `%d` conversion of `printf`. -/
def fmt_d (v : Int) : CStr :=
  if v < 0 then cstr "-" ++ dec v.natAbs else dec v.natAbs

/-! ## Constants of the source -/

/-- Flag: print directory tree. -/
def F_DEPTH : Nat := 0x1

/-- Flag: pattern matching. -/
def F_Filter : Nat := 0x2

/-- Maximum number of supported directories. -/
def MAX_DIR : Nat := 64

/-- Maximum length of a path. -/
def MAX_PATH_LEN : Nat := 1024

/-- Maximum depth of the directory tree (for `-d`). -/
def MAX_DEPTH : Nat := 20

/-- Width of the name column. -/
def MAX_PATH_DISPLAY_LEN : Nat := 54

/-- Width of the summary sentence. -/
def MAX_PATH_DISPLAY_LEN_SUMMARY : Nat := 68

/-! ## Constants of the system headers (Linux values) -/

/-- The `d_type` of a directory. -/
def DT_DIR : Nat := 4

/-- The mask of the file type bits of `st_mode`. -/
def S_IFMT : Nat := 0o170000

/-- Regular file. -/
def S_ISREG (m : Nat) : Bool := m &&& S_IFMT == 0o100000

/-- Directory. -/
def S_ISDIR (m : Nat) : Bool := m &&& S_IFMT == 0o040000

/-- Symbolic link. -/
def S_ISLNK (m : Nat) : Bool := m &&& S_IFMT == 0o120000

/-- Fifo. -/
def S_ISFIFO (m : Nat) : Bool := m &&& S_IFMT == 0o010000

/-- Socket. -/
def S_ISSOCK (m : Nat) : Bool := m &&& S_IFMT == 0o140000

/-! ## Data model -/

/-- The `struct summary` of the source. -/
structure Summary where
  dirs : Nat
  files : Nat
  links : Nat
  fifos : Nat
  socks : Nat
  size : Nat
  blocks : Nat
deriving DecidableEq, Repr

/-- The zero summary `{ 0 }`. -/
def Summary.zero : Summary := ⟨0, 0, 0, 0, 0, 0, 0⟩

/-- The fields of `struct stat` the program reads. -/
structure Stat where
  st_mode : Nat
  st_uid : Nat
  st_gid : Nat
  st_size : Nat
  st_blocks : Nat
deriving DecidableEq, Repr

/-- One member of a directory stream: its `struct dirent` fields, what `lstat` returns for its
path (`none`: the call fails) and what `opendir` returns for its path (`none`: the call fails,
`some s`: the stream `s` that `readdir` then yields, pseudo-entries included). -/
inductive FsNode where
  | mk (d_name : CStr) (d_type : Nat) (lstat : Option Stat) (dir : Option (List FsNode))

namespace FsNode

/-- The field `d_name` of the entry. -/
def d_name : FsNode → CStr
  | mk n _ _ _ => n

/-- The field `d_type` of the entry. -/
def d_type : FsNode → Nat
  | mk _ t _ _ => t

/-- What `lstat` returns for the path of the entry. -/
def lstat : FsNode → Option Stat
  | mk _ _ s _ => s

/-- What `opendir` returns for the path of the entry. -/
def dir : FsNode → Option (List FsNode)
  | mk _ _ _ d => d

end FsNode

/-- The user and group databases behind `getpwuid` and `getgrgid` (`none`: NULL). -/
structure Env where
  getpwuid : Nat → Option CStr
  getgrgid : Nat → Option CStr

/-- The global variables `max_depth` and `pattern`.  `max_depth` starts as `MAX_DEPTH` and `main`
only stores a value between 1 and `MAX_DEPTH` in it. -/
structure Globals where
  max_depth : Nat
  pattern : Option CStr
  depth_le : max_depth ≤ MAX_DEPTH

/-! ## `plural`, `summary_line`, `filetype_char` -/

/-- The function `plural(count, singular, plural)`. -/
def plural (count : Int) (singular plural : CStr) : CStr :=
  if count = 1 then singular else plural

/-- What `snprintf(buffer, 100, "%d %s, %d %s, %d %s, %d %s, and %d %s", ...)` would write
with an unbounded buffer. -/
def summary_format (stats : Summary) : CStr :=
  fmt_d (to_int stats.files) ++ cstr " " ++ plural (to_int stats.files) (cstr "file") (cstr "files")
    ++ cstr ", " ++
  fmt_d (to_int stats.dirs) ++ cstr " "
    ++ plural (to_int stats.dirs) (cstr "directory") (cstr "directories") ++ cstr ", " ++
  fmt_d (to_int stats.links) ++ cstr " " ++ plural (to_int stats.links) (cstr "link") (cstr "links")
    ++ cstr ", " ++
  fmt_d (to_int stats.fifos) ++ cstr " " ++ plural (to_int stats.fifos) (cstr "pipe") (cstr "pipes")
    ++ cstr ", and " ++
  fmt_d (to_int stats.socks) ++ cstr " "
    ++ plural (to_int stats.socks) (cstr "socket") (cstr "sockets")

/-- `snprintf(buf, size, ...)` keeps at most `size - 1` bytes. -/
def snprintf (size : Nat) (s : CStr) : CStr := s.take (size - 1)

/-- The three stores `buf[n-3] = buf[n-2] = buf[n-1] = '.'` followed by `buf[n] = 0`, on a
string longer than `n`. -/
def ellipsis (n : Nat) (s : CStr) : CStr := s.take (n - 3) ++ cstr "..."

/-- The function `summary_line(stats)`. -/
def summary_line (stats : Summary) : CStr :=
  let buffer := snprintf 100 (summary_format stats)
  if buffer.length > MAX_PATH_DISPLAY_LEN_SUMMARY then
    ellipsis MAX_PATH_DISPLAY_LEN_SUMMARY buffer
  else buffer

/-- The function `filetype_char(mode)`: blank, `d`, `l`, `f` or `s`. -/
def filetype_char (mode : Nat) : Nat :=
  if S_ISREG mode then 32
  else if S_ISDIR mode then 100
  else if S_ISLNK mode then 108
  else if S_ISFIFO mode then 102
  else if S_ISSOCK mode then 115
  else 32

/-! ## The pattern matcher -/

/-- `submatch(s, p)`: both strings end together, or the first bytes agree and the rest
submatches. -/
def submatch : CStr → CStr → Bool
  | [], [] => true
  | [], _ :: _ => false
  | _ :: _, [] => false
  | a :: s, b :: p => if a ≠ b then false else submatch s p

/-- `match(str, pattern)`: tries `submatch` at every position of `str` and returns `true` at
the first success.  When the loop ends, control reaches the closing brace of a non-void function
without a `return`: the call has no defined value (`none`). -/
def match_ : CStr → CStr → Option Bool
  | [], _ => none
  | c :: str, pattern => if submatch (c :: str) pattern then some true else match_ str pattern

/-! ## Reading and ordering a directory -/

/-- The test `ignore` of `get_next`: the entry is `.` or `..`. -/
def is_dot (e : FsNode) : Bool :=
  strcmp e.d_name (cstr ".") == 0 || strcmp e.d_name (cstr "..") == 0

/-- `get_next(dir)`: the next entry of the stream that is neither `.` nor `..`, with the rest of
the stream; `none` at the end of the stream. -/
def get_next : List FsNode → Option (FsNode × List FsNode)
  | [] => none
  | next :: rest => if is_dot next then get_next rest else some (next, rest)

/-- The loop `while ((entry = get_next(dir)) != NULL) entry_list[entry_count++] = *entry;`,
with at most `n` iterations. -/
def read_loop : Nat → List FsNode → List FsNode
  | 0, _ => []
  | n + 1, stream =>
    match get_next stream with
    | none => []
    | some (entry, rest) => entry :: read_loop n rest

/-- The entries collected from a stream (every iteration consumes at least one member, so
`stream.length` iterations reach the end). -/
def read_entries (stream : List FsNode) : List FsNode := read_loop stream.length stream

/-- The comparator `dirent_compare`. -/
def dirent_compare (e1 e2 : FsNode) : Int :=
  if e1.d_type ≠ e2.d_type then
    if e1.d_type = DT_DIR then -1
    else if e2.d_type = DT_DIR then 1
    else strcmp e1.d_name e2.d_name
  else strcmp e1.d_name e2.d_name

/-- libc `qsort` with comparator `cmp`, modelled by insertion sort: the result is a permutation
of the array in which no element is followed by one that compares smaller. -/
def qsort {α : Type} (cmp : α → α → Int) (l : List α) : List α :=
  l.insertionSort (fun a b => cmp a b ≤ 0)

/-! ## The traversal -/

/-- One call of `lstat` whose result was folded into the summary (instrumentation). -/
structure Visit where
  path : List CStr
  st : Stat
deriving DecidableEq, Repr

/-- The arguments of one `printf(print_formats[2], ...)`, with the path of the entry. -/
structure Row where
  path : List CStr
  name : CStr
  user : CStr
  group : CStr
  size : Nat
  blocks : Nat
  type : Nat
deriving DecidableEq, Repr

/-- The state of a run: the summary behind `stats`, the entries counted so far, the rows
printed so far, and whether the behaviour is still defined. -/
structure Run where
  stats : Summary
  visited : List Visit
  out : List Row
  defined : Bool
deriving DecidableEq, Repr

/-- Lines 222-228 of `process_dir`: the entry is counted under its type and its size and
blocks are added. -/
def fold_entry (stats : Summary) (st : Stat) : Summary :=
  let s1 : Summary :=
    if S_ISDIR st.st_mode then { stats with dirs := (stats.dirs + 1) % UINT_MOD }
    else if S_ISREG st.st_mode then { stats with files := (stats.files + 1) % UINT_MOD }
    else if S_ISLNK st.st_mode then { stats with links := (stats.links + 1) % UINT_MOD }
    else if S_ISFIFO st.st_mode then { stats with fifos := (stats.fifos + 1) % UINT_MOD }
    else if S_ISSOCK st.st_mode then { stats with socks := (stats.socks + 1) % UINT_MOD }
    else stats
  { s1 with size := (s1.size + st.st_size) % ULL_MOD,
            blocks := (s1.blocks + st.st_blocks) % ULL_MOD }

/-- Lines 229-237 of `process_dir`: the name column. -/
def display_name (pstr d_name : CStr) : CStr :=
  let name_with_pstr := snprintf MAX_PATH_LEN (pstr ++ d_name)
  if name_with_pstr.length > MAX_PATH_DISPLAY_LEN then
    ellipsis MAX_PATH_DISPLAY_LEN name_with_pstr
  else name_with_pstr

/-- The zero-initialised run of one root: `struct summary dstat = {0}` and nothing printed. -/
def Run.start : Run := ⟨Summary.zero, [], [], true⟩

/-- One iteration of the loop `for (int i = 0; i < entry_count; i++)` of `process_dir` on the
entry `target` (lines 217-247).  `descend` is the recursive call of line 246. -/
def visit (env : Env) (dn : List CStr) (pstr : CStr) (descend : FsNode → Run → Run)
    (r : Run) (target : FsNode) : Run :=
  if r.defined = false then r
  else
    match target.lstat with
    | none => { r with defined := false }
    | some st =>
      let stats := fold_entry r.stats st
      let visited := r.visited ++ [⟨dn ++ [target.d_name], st⟩]
      match env.getpwuid st.st_uid, env.getgrgid st.st_gid with
      | some user, some group =>
        let row : Row := ⟨dn ++ [target.d_name], display_name pstr target.d_name, user,
          group, st.st_size, st.st_blocks, filetype_char st.st_mode⟩
        let r1 : Run := ⟨stats, visited, r.out ++ [row], true⟩
        if S_ISDIR st.st_mode then descend target r1 else r1
      | _, _ => ⟨stats, visited, r.out, false⟩

/-- The function `process_dir(dn, pstr, stats, flags)`.  `dir` is what `opendir(dn)` returns and
`dn` is kept as the list of its components.  The run state `r` carries `*stats` and the output.
Neither `flags` nor the global `pattern` is read. -/
def process_dir (env : Env) (g : Globals) (dir : Option (List FsNode)) (dn : List CStr)
    (pstr : CStr) (flags : Nat) (r : Run) : Run :=
  match dir with
  | none => r
  | some stream =>
    if _h : pstr.length / 2 > g.max_depth then r
    else
      let entry_list := read_entries stream
      let sorted := qsort dirent_compare entry_list
      sorted.foldl (visit env dn pstr (fun target r1 =>
        process_dir env g target.dir (dn ++ [target.d_name])
          (snprintf MAX_PATH_LEN (pstr ++ cstr "  ")) flags r1)) r
termination_by g.max_depth + 1 - pstr.length / 2
decreasing_by
  have hd := g.depth_le
  simp only [snprintf, MAX_PATH_LEN, MAX_DEPTH, cstr, List.length_take, List.length_append] at *
  simp at _h ⊢
  omega

/-! ## The driver -/

/-- A root path of the command line with what `opendir` returns for it. -/
structure Root where
  path : CStr
  dir : Option (List FsNode)

/-- The state of the loop over the roots in `main`: the grand total `tstat`, the `dstat` of
every root processed so far, the rows printed, and whether the behaviour is still defined. -/
structure MainState where
  tstat : Summary
  dstats : List Summary
  out : List Row
  defined : Bool

/-- Lines 359-365 of `main`: `tstat.x += dstat.x` for the seven fields. -/
def aggregate (tstat dstat : Summary) : Summary :=
  { dirs := (tstat.dirs + dstat.dirs) % UINT_MOD,
    files := (tstat.files + dstat.files) % UINT_MOD,
    links := (tstat.links + dstat.links) % UINT_MOD,
    fifos := (tstat.fifos + dstat.fifos) % UINT_MOD,
    socks := (tstat.socks + dstat.socks) % UINT_MOD,
    size := (tstat.size + dstat.size) % ULL_MOD,
    blocks := (tstat.blocks + dstat.blocks) % ULL_MOD }

/-- One iteration of the loop over the roots in `main` (lines 349-371). -/
def main_step (env : Env) (g : Globals) (flags : Nat) (m : MainState) (root : Root) : MainState :=
  if m.defined = false then m
  else
    let run := process_dir env g root.dir [root.path] (cstr "  ") flags Run.start
    if run.defined = false then ⟨m.tstat, m.dstats, m.out ++ run.out, false⟩
    else ⟨aggregate m.tstat run.stats, m.dstats ++ [run.stats], m.out ++ run.out, true⟩

/-- The loop over the roots in `main`, from `tstat = { 0 }`. -/
def main_loop (env : Env) (g : Globals) (flags : Nat) (directories : List Root) : MainState :=
  directories.foldl (main_step env g flags) ⟨Summary.zero, [], [], true⟩

/-- The argument `tstat.files + tstat.dirs + tstat.links + tstat.fifos + tstat.socks` of the
final `printf`, an `unsigned int`. -/
def total_entries (tstat : Summary) : Nat :=
  (tstat.files + tstat.dirs + tstat.links + tstat.fifos + tstat.socks) % UINT_MOD

/-- The number shown for `total # of entries` by `%16d`. -/
def printed_total_entries (tstat : Summary) : Int := to_int (total_entries tstat)

/-! ## Specification-side notions

The definitions of this section follow the wording of the specification; the theorems compare
them with the definitions above, which follow the source. -/

/-- A pattern made of literal characters only: no `?`, `*`, `(`, `)` or `|`. -/
def LiteralPattern (p : CStr) : Prop :=
  ∀ c ∈ p, c ≠ 63 ∧ c ≠ 42 ∧ c ≠ 40 ∧ c ≠ 41 ∧ c ≠ 124

instance (p : CStr) : Decidable (LiteralPattern p) := by
  unfold LiteralPattern; infer_instance

/-- The name column the specification describes, for the untruncated `pstr ++ name`. -/
def spec_display_name (full : CStr) : CStr :=
  if full.length ≤ 54 then full else full.take 51 ++ cstr "..."

/-- The noun after a count: singular exactly when the count is 1. -/
def noun (count : Nat) (singular pluralForm : CStr) : CStr :=
  if count = 1 then singular else pluralForm

/-- The sentence of the specification:
`F file(s), D director(y/ies), L link(s), P pipe(s), and S socket(s)`. -/
def spec_sentence (s : Summary) : CStr :=
  dec s.files ++ cstr " " ++ noun s.files (cstr "file") (cstr "files") ++ cstr ", " ++
  dec s.dirs ++ cstr " " ++ noun s.dirs (cstr "directory") (cstr "directories") ++ cstr ", " ++
  dec s.links ++ cstr " " ++ noun s.links (cstr "link") (cstr "links") ++ cstr ", " ++
  dec s.fifos ++ cstr " " ++ noun s.fifos (cstr "pipe") (cstr "pipes") ++ cstr ", and " ++
  dec s.socks ++ cstr " " ++ noun s.socks (cstr "socket") (cstr "sockets")

/-- The summary sentence of the specification, cut to 65 bytes and `...` when longer than 68. -/
def spec_summary_line (s : Summary) : CStr :=
  if (spec_sentence s).length > 68 then (spec_sentence s).take 65 ++ cstr "..."
  else spec_sentence s

/-- The types that have a counter in `struct summary`. -/
def countable (mode : Nat) : Bool :=
  S_ISDIR mode || S_ISREG mode || S_ISLNK mode || S_ISFIFO mode || S_ISSOCK mode

/-- The sum `dirs + files + links + fifos + socks`. -/
def Summary.entries (s : Summary) : Nat := s.dirs + s.files + s.links + s.fifos + s.socks

/-- The nesting level of an entry, from its path `root :: names`: a direct child of the root
has level 0. -/
def nesting_level (path : List CStr) : Nat := path.length - 2

/-- The members of a directory stream other than the pseudo-entries `.` and `..`. -/
def members (stream : List FsNode) : List FsNode := stream.filter (fun e => !is_dot e)

/-- The entry is a directory according to `lstat`. -/
def is_dir_entry (e : FsNode) : Bool :=
  match e.lstat with
  | some st => S_ISDIR st.st_mode
  | none => false

/-- The entries at most `k` levels below a directory: its members and, for `k > 1`, the entries
at most `k - 1` levels below each member that is a directory. -/
def nested : Nat → Option (List FsNode) → List FsNode
  | 0, _ => []
  | _ + 1, none => []
  | k + 1, some stream =>
    (members stream).flatMap (fun e => e :: (if is_dir_entry e then nested k e.dir else []))

/-- The order that the specification prescribes between an earlier entry `a` and a later entry
`b` of a listing: a directory never follows a non-directory, and two directories, like two
non-directories, are in ascending byte-wise order of their names.  An entry is a directory when
`lstat` says so, as for the counts, the type column and the recursion. -/
def ListedBefore (a b : FsNode) : Prop :=
  (is_dir_entry b = true → is_dir_entry a = true) ∧
  (is_dir_entry a = true → is_dir_entry b = true → a.d_name < b.d_name) ∧
  (is_dir_entry a = false → is_dir_entry b = false → a.d_name < b.d_name)

/-- For the entry, `readdir` reports `d_type == DT_DIR` exactly when `lstat` reports a
directory. -/
def TypeReported (e : FsNode) : Prop := e.d_type = DT_DIR ↔ is_dir_entry e = true

instance (e : FsNode) : Decidable (TypeReported e) := by
  unfold TypeReported; infer_instance

/-- The paths of the printed rows whose path has `n` components, in the order of printing. -/
def own_rows (n : Nat) (out : List Row) : List (List CStr) :=
  (out.filter (fun row => row.path.length = n)).map Row.path

/-- For the entry, `lstat` succeeds and the owner and the group of the result are found by
`getpwuid` and `getgrgid`. -/
def resolvable (env : Env) (e : FsNode) : Bool :=
  match e.lstat with
  | some st => (env.getpwuid st.st_uid).isSome && (env.getgrgid st.st_gid).isSome
  | none => false

/-! ## Invariants of runs -/

/-- The order between an earlier entry `a` and a later entry `b` of an array sorted with
`dirent_compare`, in terms of the field `d_type` that the comparator reads. -/
def DirentOrdered (a b : FsNode) : Prop :=
  (b.d_type = DT_DIR → a.d_type = DT_DIR) ∧
  (a.d_type = DT_DIR → b.d_type = DT_DIR → a.d_name < b.d_name) ∧
  (a.d_type ≠ DT_DIR → b.d_type ≠ DT_DIR → a.d_name < b.d_name)

/-- The summary of a run is the fold of the entries counted so far. -/
def StatsTracked (r : Run) : Prop :=
  r.stats = (r.visited.map Visit.st).foldl fold_entry Summary.zero

/-- The paths of all entries counted and of all rows printed have between `a` and `b`
components. -/
def PathsBetween (a b : Nat) (r : Run) : Prop :=
  (∀ v ∈ r.visited, a ≤ v.path.length ∧ v.path.length ≤ b) ∧
  (∀ row ∈ r.out, a ≤ row.path.length ∧ row.path.length ≤ b)

/-- The summary `dstat` that `main` obtains for one root. -/
def root_stats (env : Env) (g : Globals) (flags : Nat) (root : Root) : Summary :=
  (process_dir env g root.dir [root.path] (cstr "  ") flags Run.start).stats

/-! ## Sample inputs -/

/-- A user and group database in which every id resolves to `root`. -/
def sample_env : Env := ⟨fun _ => some (cstr "root"), fun _ => some (cstr "root")⟩

/-- The default `max_depth = MAX_DEPTH` and no pattern. -/
def default_globals : Globals := ⟨20, none, by decide⟩

/-- The globals after `-f a`. -/
def filter_globals : Globals := ⟨20, some (cstr "a"), by decide⟩

/-- A regular file (`DT_REG`, mode `0100644`). -/
def regular (name : String) (size blocks : Nat) : FsNode :=
  .mk (cstr name) 8 (some ⟨0o100644, 0, 0, size, blocks⟩) none

/-- A directory (`DT_DIR`, mode `040755`) with the given stream. -/
def directory (name : String) (stream : List FsNode) : FsNode :=
  .mk (cstr name) 4 (some ⟨0o040755, 0, 0, 4096, 8⟩) (some stream)

/-- A character device (`DT_CHR`, mode `020620`). -/
def chardev (name : String) : FsNode :=
  .mk (cstr name) 2 (some ⟨0o020620, 0, 5, 0, 0⟩) none

/-- The run of the driver on a root `/dev` that holds one character device. -/
def dev_run : Run :=
  process_dir sample_env default_globals (some [chardev "tty"]) [cstr "/dev"] (cstr "  ") 0
    Run.start

/-- The run of the driver, after `-f a`, on a root that holds the regular file `b`. -/
def filter_run : Run :=
  process_dir sample_env filter_globals (some [regular "b" 7 8]) [cstr "."] (cstr "  ") F_Filter
    Run.start

/-- The run of the driver after `-d 1` on a root `.` that holds the directory `d`, which holds
the file `x`. -/
def depth1_run : Run :=
  process_dir sample_env ⟨1, none, by decide⟩ (some [directory "d" [regular "x" 5 8]]) [cstr "."]
    (cstr "  ") 0 Run.start

/-- Root `A` with two files and one directory, root `B` with one file. -/
def sample_main : MainState :=
  main_loop sample_env default_globals 0
    [⟨cstr "A", some [regular "a" 2 8, regular "b" 3 8, directory "d" []]⟩,
     ⟨cstr "B", some [regular "c" 1 8]⟩]

/-- Root `A` with two sparse files of `2^63 - 1` bytes, root `B` with one file of 2 bytes. -/
def huge_main : MainState :=
  main_loop sample_env default_globals 0
    [⟨cstr "A", some [regular "a" 9223372036854775807 0, regular "b" 9223372036854775807 0]⟩,
     ⟨cstr "B", some [regular "c" 2 8]⟩]

/-- A directory `zdir` and a regular file `afile` on a file system whose `readdir` reports
`DT_UNKNOWN` for every entry. -/
def unknown_stream : List FsNode :=
  [.mk (cstr "zdir") 0 (some ⟨0o040755, 0, 0, 4096, 8⟩) (some []),
   .mk (cstr "afile") 0 (some ⟨0o100644, 0, 0, 1, 8⟩) none]

/-- The run of the driver on a root that holds `unknown_stream`. -/
def unknown_run : Run :=
  process_dir sample_env default_globals (some unknown_stream) [cstr "."] (cstr "  ") 0 Run.start

/-- A stream with the two pseudo-entries, two directories and two files, in no particular
order. -/
def mixed_stream : List FsNode :=
  [directory "." [], regular "b" 1 8, directory "y" [], directory ".." [], regular "a" 1 8,
    directory "x" []]

/-! ## Unfolding `process_dir` -/

theorem process_dir_none (env : Env) (g : Globals) (dn : List CStr) (pstr : CStr) (flags : Nat)
    (r : Run) : process_dir env g none dn pstr flags r = r := by
  rw [process_dir]

theorem process_dir_some (env : Env) (g : Globals) (stream : List FsNode) (dn : List CStr)
    (pstr : CStr) (flags : Nat) (r : Run) :
    process_dir env g (some stream) dn pstr flags r =
      if pstr.length / 2 > g.max_depth then r
      else (qsort dirent_compare (read_entries stream)).foldl (visit env dn pstr
        (fun target r1 => process_dir env g target.dir (dn ++ [target.d_name])
          (snprintf MAX_PATH_LEN (pstr ++ cstr "  ")) flags r1)) r := by
  rw [process_dir]
  split <;> rfl

/-! ## The pattern matcher -/

theorem submatch_iff (s p : CStr) : submatch s p = true ↔ s = p := by
  induction s generalizing p with
  | nil => cases p <;> simp [submatch]
  | cons a s ih =>
    cases p with
    | nil => simp [submatch]
    | cons b p =>
      by_cases hab : a = b
      · simp [submatch, hab, ih]
      · simp [submatch, hab]

theorem match_none_or_true (name pattern : CStr) :
    match_ name pattern = none ∨ match_ name pattern = some true := by
  induction name with
  | nil => simp [match_]
  | cons c str ih =>
    unfold match_
    split
    · exact Or.inr rfl
    · exact ih

/-- C5: on the name `abc.txt` and the pattern `a*.txt` the comparison fails at every position
(`*` is compared as a literal byte), the loop of `match` ends and no value is returned; the same
happens for `ab.log`. -/
theorem match_star_not_supported :
    match_ (cstr "abc.txt") (cstr "a*.txt") = none ∧
    match_ (cstr "ab.log") (cstr "a*.txt") = none := by
  decide

/-- C6 as stated fails: `ab` is a literal pattern, it is matched by the name `xab`, and the two
strings differ. -/
theorem match_not_anchored :
    LiteralPattern (cstr "ab") ∧ match_ (cstr "xab") (cstr "ab") = some true ∧
      cstr "xab" ≠ cstr "ab" := by
  decide

/-- The loop of `match` succeeds exactly at a position from which the rest of the name equals the
pattern. -/
theorem match_true_iff (name pattern : CStr) :
    match_ name pattern = some true ↔ pattern ≠ [] ∧ pattern <:+ name := by
  induction name with
  | nil =>
    simp only [match_, List.suffix_nil, false_iff, not_and, reduceCtorEq]
    exact fun h1 h2 => h1 h2
  | cons c str ih =>
    unfold match_
    by_cases hs : submatch (c :: str) pattern = true
    · have hp : c :: str = pattern := (submatch_iff _ _).1 hs
      simp only [hs, if_true, true_iff]
      subst hp
      exact ⟨by simp, List.suffix_refl _⟩
    · have hp : ¬ (c :: str = pattern) := fun h => hs ((submatch_iff _ _).2 h)
      simp only [hs, if_false, Bool.false_eq_true]
      rw [ih, List.suffix_cons_iff]
      constructor
      · rintro ⟨h1, h2⟩
        exact ⟨h1, Or.inr h2⟩
      · rintro ⟨h1, h2 | h2⟩
        · exact absurd h2.symm hp
        · exact ⟨h1, h2⟩

/-- C6, amended: matching is anchored at the end of the name: for every name and every pattern
made only of literal characters, `match(name, pattern)` is true only if the whole pattern equals
a non-empty suffix of the name; in particular a pattern that equals only a substring of the name
that is not a suffix does not match. -/
theorem match_literal_anchored_at_end (name pattern : CStr) (hlit : LiteralPattern pattern) :
    (match_ name pattern = some true → pattern ≠ [] ∧ pattern <:+ name) ∧
    (¬ pattern <:+ name → match_ name pattern ≠ some true) := by
  have _ := hlit
  exact ⟨(match_true_iff name pattern).1, fun hn h => hn ((match_true_iff name pattern).1 h).2⟩

/-- The literal pattern `ab` occurs inside `xabz` but not at its end, and does not match it. -/
theorem match_literal_anchored_at_end_witness :
    LiteralPattern (cstr "ab") ∧ ¬ (cstr "ab" <:+ cstr "xabz") ∧
    (match_ (cstr "xabz") (cstr "ab") = some true →
      cstr "ab" ≠ [] ∧ cstr "ab" <:+ cstr "xabz") ∧
    (¬ cstr "ab" <:+ cstr "xabz" → match_ (cstr "xabz") (cstr "ab") ≠ some true) :=
  ⟨by decide, by decide, match_literal_anchored_at_end (cstr "xabz") (cstr "ab") (by decide)⟩

/-! ## The name column -/

/-- C8: the name column is `pstr ++ name` unchanged when that has at most 54 bytes, and
otherwise its first 51 bytes followed by `...`, 54 bytes in all; it never exceeds 54 bytes. -/
theorem display_name_spec (pstr name : CStr) :
    display_name pstr name = spec_display_name (pstr ++ name) ∧
    ((pstr ++ name).length ≤ 54 → display_name pstr name = pstr ++ name) ∧
    (54 < (pstr ++ name).length →
      display_name pstr name = (pstr ++ name).take 51 ++ cstr "..." ∧
      (display_name pstr name).length = 54) ∧
    (display_name pstr name).length ≤ 54 := by
  have key : display_name pstr name = spec_display_name (pstr ++ name) := by
    unfold display_name spec_display_name ellipsis snprintf MAX_PATH_LEN MAX_PATH_DISPLAY_LEN
    by_cases h : (pstr ++ name).length ≤ 54
    · have h1 : List.take (1024 - 1) (pstr ++ name) = pstr ++ name :=
        List.take_of_length_le (by omega)
      simp only [h1, if_pos h]
      rw [if_neg (by omega)]
    · have h2 : (List.take (1024 - 1) (pstr ++ name)).length > 54 := by
        rw [List.length_take]; omega
      simp only [if_neg h]
      rw [if_pos h2, List.take_take]
      rfl
  have hlen : ∀ s : CStr, 54 < s.length → (s.take 51 ++ cstr "...").length = 54 := by
    intro s hs
    rw [List.length_append, List.length_take]
    have : (cstr "...").length = 3 := by decide
    omega
  refine ⟨key, ?_, ?_, ?_⟩
  · intro h
    rw [key, spec_display_name, if_pos h]
  · intro h
    rw [key, spec_display_name, if_neg (by omega)]
    exact ⟨rfl, hlen _ h⟩
  · rw [key, spec_display_name]
    split
    · assumption
    · exact le_of_eq (hlen _ (by omega))

/-! ## The summary line -/

theorem to_int_of_lt (c : Nat) (h : c < 2 ^ 31) : to_int c = (c : Int) := by
  have h1 : c % UINT_MOD = c := Nat.mod_eq_of_lt (by unfold UINT_MOD; omega)
  unfold to_int
  rw [h1, if_pos h]

theorem fmt_d_natCast (c : Nat) : fmt_d (c : Int) = dec c := by
  unfold fmt_d
  rw [if_neg (by omega)]
  simp

theorem plural_natCast (c : Nat) (a b : CStr) : plural (c : Int) a b = noun c a b := by
  unfold plural noun
  by_cases h : c = 1
  · simp [h]
  · rw [if_neg h, if_neg (by omega)]

theorem summary_format_eq (s : Summary) (hf : s.files < 2 ^ 31) (hd : s.dirs < 2 ^ 31)
    (hl : s.links < 2 ^ 31) (hp : s.fifos < 2 ^ 31) (hs : s.socks < 2 ^ 31) :
    summary_format s = spec_sentence s := by
  unfold summary_format spec_sentence
  simp only [to_int_of_lt _ hf, to_int_of_lt _ hd, to_int_of_lt _ hl, to_int_of_lt _ hp,
    to_int_of_lt _ hs, fmt_d_natCast, plural_natCast]

theorem truncate_summary (s : CStr) :
    (if (snprintf 100 s).length > MAX_PATH_DISPLAY_LEN_SUMMARY then
        ellipsis MAX_PATH_DISPLAY_LEN_SUMMARY (snprintf 100 s)
      else snprintf 100 s) =
    (if s.length > 68 then s.take 65 ++ cstr "..." else s) := by
  unfold snprintf ellipsis MAX_PATH_DISPLAY_LEN_SUMMARY
  by_cases h : s.length > 68
  · have h2 : (List.take (100 - 1) s).length > 68 := by
      rw [List.length_take]; omega
    rw [if_pos h, if_pos h2, List.take_take]
    rfl
  · have h2 : ¬ (List.take (100 - 1) s).length > 68 := by
      rw [List.length_take]; omega
    rw [if_neg h, if_neg h2]
    exact List.take_of_length_le (by omega)

theorem summary_line_length_le (s : Summary) : (summary_line s).length ≤ 68 := by
  unfold summary_line
  simp only
  rw [truncate_summary]
  split
  · rw [List.length_append, List.length_take]
    have : (cstr "...").length = 3 := by decide
    omega
  · omega

/-- C10 as stated fails: with `files = 2^31` the `%d` conversion shows the count as
`-2147483648`, so the line differs from the sentence of the specification. -/
theorem summary_line_large_count :
    summary_line ⟨0, 2147483648, 0, 0, 0, 0, 0⟩ ≠ spec_summary_line ⟨0, 2147483648, 0, 0, 0, 0, 0⟩ := by
  decide

/-- C10, amended: for every summary whose five counts are below `2^31`, `summary_line` returns
the sentence of the specification, with each noun singular exactly when its count is 1, cut to
its first 65 bytes followed by `...` when it is longer than 68 bytes; the result never exceeds
68 bytes. -/
theorem summary_line_spec (s : Summary) (hf : s.files < 2 ^ 31) (hd : s.dirs < 2 ^ 31)
    (hl : s.links < 2 ^ 31) (hp : s.fifos < 2 ^ 31) (hs : s.socks < 2 ^ 31) :
    summary_line s = spec_summary_line s ∧ (summary_line s).length ≤ 68 := by
  refine ⟨?_, summary_line_length_le s⟩
  unfold summary_line spec_summary_line
  simp only
  rw [truncate_summary, summary_format_eq s hf hd hl hp hs]

/-- The summary line for one directory and two files. -/
theorem summary_line_spec_witness :
    summary_line ⟨1, 2, 0, 0, 0, 0, 0⟩ = spec_summary_line ⟨1, 2, 0, 0, 0, 0, 0⟩ ∧
    (summary_line ⟨1, 2, 0, 0, 0, 0, 0⟩).length ≤ 68 :=
  summary_line_spec ⟨1, 2, 0, 0, 0, 0, 0⟩ (by decide) (by decide) (by decide) (by decide) (by decide)

/-! ## Induction over the traversal -/

theorem snprintf_pstr (g : Globals) (pstr : CStr) (h : ¬ pstr.length / 2 > g.max_depth) :
    snprintf MAX_PATH_LEN (pstr ++ cstr "  ") = pstr ++ cstr "  " := by
  have hd := g.depth_le
  have h2 : (cstr "  ").length = 2 := by decide
  unfold snprintf
  apply List.take_of_length_le
  rw [List.length_append, h2]
  unfold MAX_PATH_LEN
  unfold MAX_DEPTH at hd
  omega

/-- Induction along the calls of `process_dir`: a relation between the arguments of a call, the
run before it and the run after it holds for every call when it holds for a failed `opendir`,
for a call beyond the depth limit, and for the loop over the sorted entries provided it holds
for every recursive call. -/
theorem process_dir_induct (env : Env) (g : Globals) (flags : Nat)
    (P : Option (List FsNode) → List CStr → CStr → Run → Run → Prop)
    (h_none : ∀ dn pstr r, P none dn pstr r r)
    (h_deep : ∀ stream dn pstr r, pstr.length / 2 > g.max_depth → P (some stream) dn pstr r r)
    (h_loop : ∀ stream dn pstr r (descend : FsNode → Run → Run),
      ¬ pstr.length / 2 > g.max_depth →
      (∀ target r1, P target.dir (dn ++ [target.d_name]) (pstr ++ cstr "  ") r1
        (descend target r1)) →
      P (some stream) dn pstr r
        ((qsort dirent_compare (read_entries stream)).foldl (visit env dn pstr descend) r))
    (dir : Option (List FsNode)) (dn : List CStr) (pstr : CStr) (r : Run) :
    P dir dn pstr r (process_dir env g dir dn pstr flags r) := by
  generalize hn : g.max_depth + 1 - pstr.length / 2 = n
  induction n using Nat.strong_induction_on generalizing dir dn pstr r with
  | _ n ih =>
    cases dir with
    | none => rw [process_dir_none]; exact h_none dn pstr r
    | some stream =>
      rw [process_dir_some]
      by_cases hd : pstr.length / 2 > g.max_depth
      · rw [if_pos hd]; exact h_deep stream dn pstr r hd
      · rw [if_neg hd, snprintf_pstr g pstr hd]
        apply h_loop stream dn pstr r _ hd
        intro target r1
        have h2 : (cstr "  ").length = 2 := by decide
        exact ih (g.max_depth + 1 - (pstr ++ cstr "  ").length / 2)
          (by rw [List.length_append, h2]; omega) _ _ _ _ rfl

/-- An invariant of runs that every loop iteration preserves holds after the loop. -/
theorem foldl_visit_invariant (I : Run → Prop) (step : Run → FsNode → Run)
    (hstep : ∀ r target, I r → I (step r target)) (l : List FsNode) (r : Run) (h : I r) :
    I (l.foldl step r) := by
  induction l generalizing r with
  | nil => exact h
  | cons a l ih => exact ih _ (hstep r a h)

theorem visit_statsTracked (env : Env) (dn : List CStr) (pstr : CStr)
    (descend : FsNode → Run → Run)
    (hdesc : ∀ target r1, StatsTracked r1 → StatsTracked (descend target r1))
    (r : Run) (target : FsNode) (h : StatsTracked r) :
    StatsTracked (visit env dn pstr descend r target) := by
  unfold visit
  split
  · exact h
  · split
    · exact h
    · rename_i st _
      have h1 : fold_entry r.stats st =
          ((r.visited ++ [(⟨dn ++ [target.d_name], st⟩ : Visit)]).map Visit.st).foldl fold_entry
            Summary.zero := by
        rw [List.map_append, List.foldl_append, ← h]
        rfl
      split
      · split
        · exact hdesc _ _ h1
        · exact h1
      · exact h1

theorem process_dir_statsTracked (env : Env) (g : Globals) (flags : Nat)
    (dir : Option (List FsNode)) (dn : List CStr) (pstr : CStr) (r : Run) (h : StatsTracked r) :
    StatsTracked (process_dir env g dir dn pstr flags r) := by
  refine process_dir_induct env g flags (fun _ _ _ r r1 => StatsTracked r → StatsTracked r1)
    (fun _ _ _ h => h) (fun _ _ _ _ _ h => h) ?_ dir dn pstr r h
  intro stream dn pstr r descend _ hdesc h
  exact foldl_visit_invariant StatsTracked _
    (fun r target hr => visit_statsTracked env dn pstr descend hdesc r target hr) _ r h

theorem start_statsTracked : StatsTracked Run.start := rfl

/-! ## What the summary counts -/

theorem fold_entry_dirs (s : Summary) (st : Stat) :
    (fold_entry s st).dirs = if S_ISDIR st.st_mode then (s.dirs + 1) % UINT_MOD else s.dirs := by
  unfold fold_entry
  simp only
  split_ifs <;> rfl

theorem fold_entry_files (s : Summary) (st : Stat) :
    (fold_entry s st).files =
      if !S_ISDIR st.st_mode && S_ISREG st.st_mode then (s.files + 1) % UINT_MOD else s.files := by
  unfold fold_entry
  simp only
  split_ifs <;> simp_all

theorem fold_entry_links (s : Summary) (st : Stat) :
    (fold_entry s st).links =
      if !S_ISDIR st.st_mode && !S_ISREG st.st_mode && S_ISLNK st.st_mode then
        (s.links + 1) % UINT_MOD else s.links := by
  unfold fold_entry
  simp only
  split_ifs <;> simp_all

theorem fold_entry_fifos (s : Summary) (st : Stat) :
    (fold_entry s st).fifos =
      if !S_ISDIR st.st_mode && !S_ISREG st.st_mode && !S_ISLNK st.st_mode
          && S_ISFIFO st.st_mode then
        (s.fifos + 1) % UINT_MOD else s.fifos := by
  unfold fold_entry
  simp only
  split_ifs <;> simp_all

theorem fold_entry_socks (s : Summary) (st : Stat) :
    (fold_entry s st).socks =
      if !S_ISDIR st.st_mode && !S_ISREG st.st_mode && !S_ISLNK st.st_mode
          && !S_ISFIFO st.st_mode && S_ISSOCK st.st_mode then
        (s.socks + 1) % UINT_MOD else s.socks := by
  unfold fold_entry
  simp only
  split_ifs <;> simp_all

theorem fold_entry_size (s : Summary) (st : Stat) :
    (fold_entry s st).size = (s.size + st.st_size) % ULL_MOD := by
  unfold fold_entry
  simp only
  split_ifs <;> rfl

theorem fold_entry_blocks (s : Summary) (st : Stat) :
    (fold_entry s st).blocks = (s.blocks + st.st_blocks) % ULL_MOD := by
  unfold fold_entry
  simp only
  split_ifs <;> rfl

/-- The file type bits select at most one of the five tests. -/
theorem type_tests_exclusive (m : Nat) :
    (S_ISDIR m = true → S_ISREG m = false ∧ S_ISLNK m = false ∧ S_ISFIFO m = false ∧
      S_ISSOCK m = false) ∧
    (S_ISREG m = true → S_ISLNK m = false ∧ S_ISFIFO m = false ∧ S_ISSOCK m = false) ∧
    (S_ISLNK m = true → S_ISFIFO m = false ∧ S_ISSOCK m = false) ∧
    (S_ISFIFO m = true → S_ISSOCK m = false) := by
  unfold S_ISDIR S_ISREG S_ISLNK S_ISFIFO S_ISSOCK
  generalize m &&& S_IFMT = v
  simp only [beq_iff_eq, beq_eq_false_iff_ne]
  omega

theorem fold_entry_files_eq (s : Summary) (st : Stat) :
    (fold_entry s st).files = if S_ISREG st.st_mode then (s.files + 1) % UINT_MOD else s.files := by
  rw [fold_entry_files]
  have h := type_tests_exclusive st.st_mode
  cases h1 : S_ISDIR st.st_mode <;> cases h2 : S_ISREG st.st_mode <;> simp_all

theorem fold_entry_links_eq (s : Summary) (st : Stat) :
    (fold_entry s st).links = if S_ISLNK st.st_mode then (s.links + 1) % UINT_MOD else s.links := by
  rw [fold_entry_links]
  have h := type_tests_exclusive st.st_mode
  cases h1 : S_ISDIR st.st_mode <;> cases h2 : S_ISREG st.st_mode <;>
    cases h3 : S_ISLNK st.st_mode <;> simp_all

theorem fold_entry_fifos_eq (s : Summary) (st : Stat) :
    (fold_entry s st).fifos = if S_ISFIFO st.st_mode then (s.fifos + 1) % UINT_MOD else s.fifos := by
  rw [fold_entry_fifos]
  have h := type_tests_exclusive st.st_mode
  cases h1 : S_ISDIR st.st_mode <;> cases h2 : S_ISREG st.st_mode <;>
    cases h3 : S_ISLNK st.st_mode <;> cases h4 : S_ISFIFO st.st_mode <;> simp_all

theorem fold_entry_socks_eq (s : Summary) (st : Stat) :
    (fold_entry s st).socks = if S_ISSOCK st.st_mode then (s.socks + 1) % UINT_MOD else s.socks := by
  rw [fold_entry_socks]
  have h := type_tests_exclusive st.st_mode
  cases h1 : S_ISDIR st.st_mode <;> cases h2 : S_ISREG st.st_mode <;>
    cases h3 : S_ISLNK st.st_mode <;> cases h4 : S_ISFIFO st.st_mode <;>
    cases h5 : S_ISSOCK st.st_mode <;> simp_all

/-- A counter that is bumped modulo `m` for the entries passing a test holds the number of such
entries modulo `m`. -/
theorem counter_step (m c old : Nat) (b : Bool) (h : old = c % m) :
    (if b = true then (old + 1) % m else old) = (c + if b = true then 1 else 0) % m := by
  subst h
  cases b
  · simp
  · simp [Nat.mod_add_mod]

/-- After the entries `sts` have been folded into the zero summary, every counter holds the
number of entries of its type modulo `2^32`, and `size` and `blocks` hold the sums modulo
`2^64`. -/
theorem fold_entries_tally (sts : List Stat) :
    (sts.foldl fold_entry Summary.zero).dirs =
      sts.countP (fun st => S_ISDIR st.st_mode) % UINT_MOD ∧
    (sts.foldl fold_entry Summary.zero).files =
      sts.countP (fun st => S_ISREG st.st_mode) % UINT_MOD ∧
    (sts.foldl fold_entry Summary.zero).links =
      sts.countP (fun st => S_ISLNK st.st_mode) % UINT_MOD ∧
    (sts.foldl fold_entry Summary.zero).fifos =
      sts.countP (fun st => S_ISFIFO st.st_mode) % UINT_MOD ∧
    (sts.foldl fold_entry Summary.zero).socks =
      sts.countP (fun st => S_ISSOCK st.st_mode) % UINT_MOD ∧
    (sts.foldl fold_entry Summary.zero).size = (sts.map Stat.st_size).sum % ULL_MOD ∧
    (sts.foldl fold_entry Summary.zero).blocks = (sts.map Stat.st_blocks).sum % ULL_MOD := by
  induction sts using List.reverseRecOn with
  | nil => simp [Summary.zero]
  | append_singleton l st ih =>
    obtain ⟨h1, h2, h3, h4, h5, h6, h7⟩ := ih
    simp only [List.foldl_append, List.foldl_cons, List.foldl_nil, List.countP_append,
      List.countP_cons, List.countP_nil, List.map_append, List.sum_append, List.map_cons,
      List.map_nil, List.sum_cons, List.sum_nil, Nat.zero_add, Nat.add_zero]
    refine ⟨?_, ?_, ?_, ?_, ?_, ?_, ?_⟩
    · rw [fold_entry_dirs]; exact counter_step _ _ _ _ h1
    · rw [fold_entry_files_eq]; exact counter_step _ _ _ _ h2
    · rw [fold_entry_links_eq]; exact counter_step _ _ _ _ h3
    · rw [fold_entry_fifos_eq]; exact counter_step _ _ _ _ h4
    · rw [fold_entry_socks_eq]; exact counter_step _ _ _ _ h5
    · rw [fold_entry_size, h6, Nat.mod_add_mod]
    · rw [fold_entry_blocks, h7, Nat.mod_add_mod]

/-- The entries with a counter are counted once, under exactly one of the five tests. -/
theorem countP_countable (sts : List Stat) :
    sts.countP (fun st => countable st.st_mode) =
      sts.countP (fun st => S_ISDIR st.st_mode) + sts.countP (fun st => S_ISREG st.st_mode) +
      sts.countP (fun st => S_ISLNK st.st_mode) + sts.countP (fun st => S_ISFIFO st.st_mode) +
      sts.countP (fun st => S_ISSOCK st.st_mode) := by
  induction sts with
  | nil => simp
  | cons st l ih =>
    simp only [List.countP_cons]
    rw [ih]
    have h := type_tests_exclusive st.st_mode
    have hc : countable st.st_mode = (S_ISDIR st.st_mode || S_ISREG st.st_mode ||
      S_ISLNK st.st_mode || S_ISFIFO st.st_mode || S_ISSOCK st.st_mode) := rfl
    rw [hc]
    cases h1 : S_ISDIR st.st_mode <;> cases h2 : S_ISREG st.st_mode <;>
      cases h3 : S_ISLNK st.st_mode <;> cases h4 : S_ISFIFO st.st_mode <;>
      cases h5 : S_ISSOCK st.st_mode <;> simp only [h1, h2, h3, h4, h5] at h <;>
      simp at h ⊢ <;> omega

theorem fold_entries_count (sts : List Stat) (h : sts.length < 2 ^ 32) :
    (sts.foldl fold_entry Summary.zero).entries = sts.countP (fun st => countable st.st_mode) := by
  obtain ⟨h1, h2, h3, h4, h5, _, _⟩ := fold_entries_tally sts
  have b : ∀ p : Stat → Bool, sts.countP p % UINT_MOD = sts.countP p := fun p =>
    Nat.mod_eq_of_lt (lt_of_le_of_lt (List.countP_le_length p) (by unfold UINT_MOD; omega))
  rw [Summary.entries, h1, h2, h3, h4, h5, b, b, b, b, b, countP_countable]

/-- C9 as stated fails: a character device is folded into the summary (it is the one entry
counted) and none of the five counts is incremented. -/
theorem chardev_not_counted :
    dev_run.defined = true ∧ dev_run.visited.length = 1 ∧ dev_run.stats.entries = 0 ∧
    dev_run.stats.entries ≠ dev_run.visited.length := by
  simp +decide [dev_run, process_dir_some, read_entries, read_loop, get_next, is_dot, qsort,
    dirent_compare, strcmp, cstr, sample_env, default_globals, chardev, Run.start, FsNode.d_name,
    FsNode.d_type, FsNode.lstat, FsNode.dir, fold_entry, visit, Summary.zero, Summary.entries]

/-- C9, amended: the summary of a run is the fold of the entries counted so far, and after any
number `n < 2^32` of entries has been folded, `dirs + files + links + fifos + socks` equals the
number of those entries that are a directory, regular file, link, fifo or socket. -/
theorem summary_counts_invariant (env : Env) (g : Globals) (dir : Option (List FsNode))
    (dn : List CStr) (pstr : CStr) (flags n : Nat) (hn : n < 2 ^ 32) :
    (process_dir env g dir dn pstr flags Run.start).stats =
      ((process_dir env g dir dn pstr flags Run.start).visited.map Visit.st).foldl fold_entry
        Summary.zero ∧
    ((((process_dir env g dir dn pstr flags Run.start).visited.take n).map Visit.st).foldl
        fold_entry Summary.zero).entries =
      ((process_dir env g dir dn pstr flags Run.start).visited.take n).countP
        (fun v => countable v.st.st_mode) := by
  refine ⟨process_dir_statsTracked env g flags dir dn pstr _ start_statsTracked, ?_⟩
  rw [fold_entries_count _ (by rw [List.length_map, List.length_take]; omega), List.countP_map]
  rfl

/-- The invariant on the run over `/dev`, after its one entry. -/
theorem summary_counts_invariant_witness :
    dev_run.stats = (dev_run.visited.map Visit.st).foldl fold_entry Summary.zero ∧
    (((dev_run.visited.take 1).map Visit.st).foldl fold_entry Summary.zero).entries =
      (dev_run.visited.take 1).countP (fun v => countable v.st.st_mode) :=
  summary_counts_invariant sample_env default_globals (some [chardev "tty"]) [cstr "/dev"]
    (cstr "  ") 0 1 (by decide)

/-- Neither the flags nor the pattern influence `process_dir`. -/
theorem process_dir_ignores_filter (env : Env) (g g1 : Globals) (hg : g.max_depth = g1.max_depth)
    (flags flags1 : Nat) (dir : Option (List FsNode)) (dn : List CStr) (pstr : CStr) (r : Run) :
    process_dir env g dir dn pstr flags r = process_dir env g1 dir dn pstr flags1 r := by
  generalize hn : g.max_depth + 1 - pstr.length / 2 = n
  induction n using Nat.strong_induction_on generalizing dir dn pstr r with
  | _ n ih =>
    cases dir with
    | none => rw [process_dir_none, process_dir_none]
    | some stream =>
      rw [process_dir_some, process_dir_some, ← hg]
      by_cases hd : pstr.length / 2 > g.max_depth
      · rw [if_pos hd, if_pos hd]
      · rw [if_neg hd, if_neg hd, snprintf_pstr g pstr hd]
        have h2 : (cstr "  ").length = 2 := by decide
        have hrec : (fun (target : FsNode) (r1 : Run) =>
            process_dir env g target.dir (dn ++ [target.d_name]) (pstr ++ cstr "  ") flags r1) =
            (fun target r1 =>
            process_dir env g1 target.dir (dn ++ [target.d_name]) (pstr ++ cstr "  ") flags1 r1) := by
          funext target r1
          exact ih (g.max_depth + 1 - (pstr ++ cstr "  ").length / 2)
            (by rw [List.length_append, h2]; omega) _ _ _ _ rfl
        rw [hrec]

/-- C3: with `-f a` active, the entry `b` does not match the pattern, and `process_dir` prints
its row and counts it as a file. -/
theorem filter_not_applied :
    filter_globals.pattern = some (cstr "a") ∧ match_ (cstr "b") (cstr "a") = none ∧
    filter_run.out.map Row.name = [cstr "  b"] ∧ filter_run.stats.files = 1 ∧
    filter_run.stats.size = 7 := by
  simp +decide [filter_run, process_dir_some, read_entries, read_loop, get_next, is_dot, qsort,
    dirent_compare, strcmp, cstr, sample_env, filter_globals, regular, Run.start, FsNode.d_name,
    FsNode.d_type, FsNode.lstat, FsNode.dir, fold_entry, visit, Summary.zero, display_name,
    snprintf, match_, submatch]

/-! ## The depth limit -/

theorem visit_pathsBetween (env : Env) (dn : List CStr) (pstr : CStr)
    (descend : FsNode → Run → Run) (a b : Nat) (ha : a ≤ dn.length + 1) (hb : dn.length + 1 ≤ b)
    (hdesc : ∀ target r1, PathsBetween a b r1 → PathsBetween a b (descend target r1))
    (r : Run) (target : FsNode) (h : PathsBetween a b r) :
    PathsBetween a b (visit env dn pstr descend r target) := by
  have hlen : (dn ++ [target.d_name]).length = dn.length + 1 := by simp
  unfold visit
  split
  · exact h
  · split
    · exact h
    · rename_i st _
      have hv : ∀ v ∈ r.visited ++ [(⟨dn ++ [target.d_name], st⟩ : Visit)],
          a ≤ v.path.length ∧ v.path.length ≤ b := by
        intro v hv
        rcases List.mem_append.1 hv with hv | hv
        · exact h.1 v hv
        · rw [List.mem_singleton] at hv
          subst hv
          exact ⟨by rw [hlen]; exact ha, by rw [hlen]; exact hb⟩
      split
      · rename_i user group _ _
        have h1 : PathsBetween a b ⟨fold_entry r.stats st,
            r.visited ++ [⟨dn ++ [target.d_name], st⟩],
            r.out ++ [⟨dn ++ [target.d_name], display_name pstr target.d_name, user, group,
              st.st_size, st.st_blocks, filetype_char st.st_mode⟩], true⟩ := by
          refine ⟨hv, ?_⟩
          intro row hrow
          rcases List.mem_append.1 hrow with hrow | hrow
          · exact h.2 row hrow
          · rw [List.mem_singleton] at hrow
            subst hrow
            exact ⟨by rw [hlen]; exact ha, by rw [hlen]; exact hb⟩
        split
        · exact hdesc _ _ h1
        · exact h1
      · exact ⟨hv, h.2⟩

/-- A call of `process_dir` on the directory `dn` with prefix `pstr` only counts and prints
entries whose paths have more components than `dn` and at most
`max_depth + 1 - strlen(pstr) / 2` more. -/
theorem process_dir_pathsBetween (env : Env) (g : Globals) (flags a b : Nat)
    (dir : Option (List FsNode)) (dn : List CStr) (pstr : CStr) (r : Run)
    (ha : a ≤ dn.length + 1) (hb : dn.length + (g.max_depth + 1 - pstr.length / 2) ≤ b)
    (h : PathsBetween a b r) :
    PathsBetween a b (process_dir env g dir dn pstr flags r) := by
  refine process_dir_induct env g flags
    (fun _ dn pstr r r1 => a ≤ dn.length + 1 → dn.length + (g.max_depth + 1 - pstr.length / 2) ≤ b →
      PathsBetween a b r → PathsBetween a b r1)
    (fun _ _ _ _ _ h => h) (fun _ _ _ _ _ _ _ h => h) ?_ dir dn pstr r ha hb h
  intro stream dn pstr r descend hd hdesc ha hb h
  have h2 : (cstr "  ").length = 2 := by decide
  refine foldl_visit_invariant (PathsBetween a b) _
    (fun r target hr => visit_pathsBetween env dn pstr descend a b ha (by omega) ?_ r target hr)
    _ r h
  intro target r1 hr1
  refine hdesc target r1 ?_ ?_ hr1
  · rw [List.length_append]; omega
  · rw [List.length_append, List.length_append, h2, List.length_singleton]; omega

/-- C4: for a maximum depth `k ≤ 20`, the traversal that the driver starts on a root (prefix of
two blanks, zero summary) neither prints nor counts an entry at a nesting level greater than `k`,
level 0 being the direct children of the root: every printed row and every counted entry has a
path of at least two components and a level of at most `k`, and the summary is the fold of the
counted entries alone. -/
theorem depth_limit (env : Env) (k : Nat) (hk : k ≤ MAX_DEPTH) (pattern : Option CStr)
    (root : Option (List FsNode)) (rootpath : CStr) (flags : Nat) :
    (∀ row ∈ (process_dir env ⟨k, pattern, hk⟩ root [rootpath] (cstr "  ") flags Run.start).out,
      2 ≤ row.path.length ∧ nesting_level row.path ≤ k) ∧
    (∀ v ∈ (process_dir env ⟨k, pattern, hk⟩ root [rootpath] (cstr "  ") flags Run.start).visited,
      2 ≤ v.path.length ∧ nesting_level v.path ≤ k) ∧
    (process_dir env ⟨k, pattern, hk⟩ root [rootpath] (cstr "  ") flags Run.start).stats =
      ((process_dir env ⟨k, pattern, hk⟩ root [rootpath] (cstr "  ") flags Run.start).visited.map
        Visit.st).foldl fold_entry Summary.zero := by
  have h2 : (cstr "  ").length = 2 := by decide
  have h := process_dir_pathsBetween env ⟨k, pattern, hk⟩ flags 2 (k + 1) root [rootpath]
    (cstr "  ") Run.start (by simp) (by simp only [h2, List.length_singleton]; omega)
    ⟨by simp [Run.start], by simp [Run.start]⟩
  refine ⟨fun row hrow => ?_, fun v hv => ?_,
    process_dir_statsTracked env _ flags root [rootpath] _ _ start_statsTracked⟩
  · have := h.2 row hrow
    unfold nesting_level
    omega
  · have := h.1 v hv
    unfold nesting_level
    omega

/-- With `-d 1` the file `x` inside the directory `d` is not listed. -/
theorem depth_limit_witness :
    1 ≤ MAX_DEPTH ∧ depth1_run.out.map Row.path = [[cstr ".", cstr "d"]] ∧
    (∀ row ∈ depth1_run.out, 2 ≤ row.path.length ∧ nesting_level row.path ≤ 1) ∧
    (∀ v ∈ depth1_run.visited, 2 ≤ v.path.length ∧ nesting_level v.path ≤ 1) ∧
    depth1_run.stats = (depth1_run.visited.map Visit.st).foldl fold_entry Summary.zero :=
  ⟨by decide,
   by simp +decide [depth1_run, process_dir_some, read_entries, read_loop, get_next, is_dot, qsort,
        dirent_compare, strcmp, cstr, sample_env, directory, regular, Run.start, FsNode.d_name,
        FsNode.d_type, FsNode.lstat, FsNode.dir, visit, snprintf],
   depth_limit sample_env 1 (by decide) none (some [directory "d" [regular "x" 5 8]]) (cstr ".") 0⟩

/-! ## What a traversal counts -/

theorem get_next_length (stream : List FsNode) (e : FsNode) (rest : List FsNode)
    (h : get_next stream = some (e, rest)) : rest.length < stream.length := by
  induction stream with
  | nil => simp [get_next] at h
  | cons a l ih =>
    unfold get_next at h
    split at h
    · have := ih h
      simp only [List.length_cons]
      omega
    · simp only [Option.some.injEq, Prod.mk.injEq] at h
      rw [← h.2]
      simp

theorem get_next_members (stream : List FsNode) :
    (get_next stream = none ∧ members stream = []) ∨
    (∃ e rest, get_next stream = some (e, rest) ∧ members stream = e :: members rest) := by
  induction stream with
  | nil => exact Or.inl ⟨rfl, rfl⟩
  | cons a l ih =>
    unfold get_next members
    by_cases ha : is_dot a = true
    · simp only [ha, if_true, List.filter_cons, Bool.not_true, Bool.false_eq_true, if_false]
      exact ih
    · simp only [ha, if_false, List.filter_cons, Bool.not_eq_true] at *
      refine Or.inr ⟨a, l, rfl, ?_⟩
      simp [ha]

theorem read_loop_members (n : Nat) (stream : List FsNode) (h : stream.length ≤ n) :
    read_loop n stream = members stream := by
  induction n generalizing stream with
  | zero =>
    have : stream = [] := List.length_eq_zero.1 (by omega)
    subst this
    rfl
  | succ n ih =>
    unfold read_loop
    rcases get_next_members stream with ⟨h1, h2⟩ | ⟨e, rest, h1, h2⟩
    · rw [h1, h2]
    · rw [h1, h2]
      simp only
      rw [ih rest (by have := get_next_length stream e rest h1; omega)]

/-- The loop over `get_next` collects the members of the stream other than `.` and `..`, in
the order of the stream. -/
theorem read_entries_eq_members (stream : List FsNode) : read_entries stream = members stream :=
  read_loop_members _ stream (le_refl _)

theorem qsort_perm {α : Type} (cmp : α → α → Int) (l : List α) : (qsort cmp l).Perm l :=
  List.perm_insertionSort _ l

theorem foldl_invariant_mem {α β : Type} (I : β → Prop) (step : β → α → β) (l : List α)
    (hstep : ∀ b, ∀ a ∈ l, I b → I (step b a)) (b : β) (h : I b) : I (l.foldl step b) := by
  induction l generalizing b with
  | nil => exact h
  | cons a l ih =>
    exact ih (fun b x hx => hstep b x (List.mem_cons_of_mem _ hx)) _
      (hstep b a (List.mem_cons_self _ _) h)

/-- A loop iteration on a resolvable entry keeps the run defined when the recursive call
does. -/
theorem visit_stays_defined (env : Env) (dn : List CStr) (pstr : CStr)
    (descend : FsNode → Run → Run) (r : Run) (target : FsNode)
    (hres : resolvable env target = true)
    (hdesc : is_dir_entry target = true → ∀ r1, r1.defined = true →
      (descend target r1).defined = true)
    (h : r.defined = true) : (visit env dn pstr descend r target).defined = true := by
  unfold visit
  rw [if_neg (by simp [h])]
  unfold resolvable at hres
  unfold is_dir_entry at hdesc
  cases hl : target.lstat with
  | none => simp [hl] at hres
  | some st =>
    simp only [hl, Bool.and_eq_true] at hres hdesc ⊢
    cases hu : env.getpwuid st.st_uid with
    | none => simp [hu] at hres
    | some user =>
      cases hg : env.getgrgid st.st_gid with
      | none => simp [hg] at hres
      | some group =>
        simp only
        by_cases hd : S_ISDIR st.st_mode = true
        · rw [if_pos hd]
          exact hdesc hd _ rfl
        · rw [if_neg hd]

/-- A call of `process_dir` from a defined run ends in a defined run when every entry it can
reach is resolvable. -/
theorem process_dir_defined (env : Env) (g : Globals) (flags : Nat)
    (dir : Option (List FsNode)) (dn : List CStr) (pstr : CStr) (r : Run)
    (h : r.defined = true)
    (hres : ∀ e ∈ nested (g.max_depth + 1 - pstr.length / 2) dir, resolvable env e = true) :
    (process_dir env g dir dn pstr flags r).defined = true := by
  refine process_dir_induct env g flags
    (fun dir _ pstr r r1 => r.defined = true →
      (∀ e ∈ nested (g.max_depth + 1 - pstr.length / 2) dir, resolvable env e = true) →
      r1.defined = true)
    (fun _ _ _ h _ => h) (fun _ _ _ _ _ h _ => h) ?_ dir dn pstr r h hres
  intro stream dn pstr r descend hd hdesc h hres
  have h2 : (cstr "  ").length = 2 := by decide
  have hk : g.max_depth + 1 - pstr.length / 2 =
      (g.max_depth + 1 - (pstr ++ cstr "  ").length / 2) + 1 := by
    rw [List.length_append, h2]; omega
  rw [hk, nested] at hres
  refine foldl_invariant_mem (fun r1 : Run => r1.defined = true) _ _ ?_ r h
  intro r1 target ht hr1
  have hm : target ∈ members stream := by
    rw [← read_entries_eq_members]
    exact (qsort_perm _ _).mem_iff.1 ht
  refine visit_stays_defined env dn pstr descend r1 target ?_ ?_ hr1
  · exact hres target (List.mem_flatMap.2 ⟨target, hm, List.mem_cons_self _ _⟩)
  · intro hdir r2 hr2
    refine hdesc target r2 hr2 ?_
    intro e he
    refine hres e (List.mem_flatMap.2 ⟨target, hm, ?_⟩)
    rw [if_pos hdir]
    exact List.mem_cons_of_mem _ he

theorem main_loop_append (env : Env) (g : Globals) (flags : Nat) (ds : List Root) (d : Root) :
    main_loop env g flags (ds ++ [d]) = main_step env g flags (main_loop env g flags ds) d := by
  simp [main_loop, List.foldl_append]

theorem main_step_defined (env : Env) (g : Globals) (flags : Nat) (m : MainState) (d : Root)
    (h : (main_step env g flags m d).defined = true) :
    m.defined = true ∧
    (main_step env g flags m d).tstat = aggregate m.tstat (root_stats env g flags d) ∧
    (main_step env g flags m d).dstats = m.dstats ++ [root_stats env g flags d] := by
  unfold main_step at h ⊢
  by_cases hm : m.defined = false
  · rw [if_pos hm] at h
    rw [hm] at h
    simp at h
  · rw [if_neg hm] at h ⊢
    simp only at h ⊢
    split at h
    · simp at h
    · rename_i hr
      rw [if_neg hr]
      exact ⟨by simpa using hm, rfl, rfl⟩

theorem sum_entries (l : List Summary) :
    (l.map Summary.entries).sum = (l.map Summary.dirs).sum + (l.map Summary.files).sum +
      (l.map Summary.links).sum + (l.map Summary.fifos).sum + (l.map Summary.socks).sum := by
  induction l with
  | nil => rfl
  | cons a l ih =>
    simp only [List.map_cons, List.sum_cons, ih, Summary.entries]
    omega

/-- C7 as stated fails: the two per-root sizes are `2^64 - 2` and `2`, and the grand total
`tstat.size` is 0, not their sum. -/
theorem grand_total_wraps :
    huge_main.defined = true ∧ huge_main.dstats.map Summary.size = [18446744073709551614, 2] ∧
    huge_main.tstat.size = 0 ∧ huge_main.tstat.size ≠ (huge_main.dstats.map Summary.size).sum := by
  simp +decide [huge_main, main_loop, main_step, aggregate, process_dir_some, read_entries,
    read_loop, get_next, is_dot, qsort, dirent_compare, strcmp, cstr, sample_env, default_globals,
    regular, Run.start, FsNode.d_name, FsNode.d_type, FsNode.lstat, FsNode.dir, fold_entry, visit,
    Summary.zero, ULL_MOD, UINT_MOD]

theorem main_loop_defined (env : Env) (g : Globals) (flags : Nat) (directories : List Root)
    (hres : ∀ root ∈ directories, ∀ e ∈ nested g.max_depth root.dir, resolvable env e = true) :
    (main_loop env g flags directories).defined = true := by
  have h2 : (cstr "  ").length = 2 := by decide
  have hk : g.max_depth + 1 - (cstr "  ").length / 2 = g.max_depth := by rw [h2]; omega
  unfold main_loop
  refine foldl_invariant_mem (fun m : MainState => m.defined = true) _ _ ?_ _ rfl
  intro m root hroot hm
  have hrun : (process_dir env g root.dir [root.path] (cstr "  ") flags Run.start).defined =
      true :=
    process_dir_defined env g flags root.dir [root.path] (cstr "  ") Run.start rfl
      (by rw [hk]; exact hres root hroot)
  unfold main_step
  rw [if_neg (by simp [hm])]
  simp only
  rw [if_neg (by simp [hrun])]

/-- C7, amended: when every entry at most `max_depth` levels below each root is resolvable, the
loop over the roots completes, `dstats` holds the summary of every root, each field of the grand
total `tstat` is the sum of that field over the roots modulo `2^32` (the five counts) or `2^64`
(size and blocks), and the total number of entries passed to `printf` is the sum of the five
total counts modulo `2^32`, which is the number of entries of all roots modulo `2^32`; `%16d`
shows it as a signed 32-bit number. -/
theorem grand_total (env : Env) (g : Globals) (flags : Nat) (directories : List Root)
    (hres : ∀ root ∈ directories, ∀ e ∈ nested g.max_depth root.dir, resolvable env e = true) :
    (main_loop env g flags directories).defined = true ∧
    (main_loop env g flags directories).dstats = directories.map (root_stats env g flags) ∧
    (main_loop env g flags directories).tstat.dirs =
      ((main_loop env g flags directories).dstats.map Summary.dirs).sum % UINT_MOD ∧
    (main_loop env g flags directories).tstat.files =
      ((main_loop env g flags directories).dstats.map Summary.files).sum % UINT_MOD ∧
    (main_loop env g flags directories).tstat.links =
      ((main_loop env g flags directories).dstats.map Summary.links).sum % UINT_MOD ∧
    (main_loop env g flags directories).tstat.fifos =
      ((main_loop env g flags directories).dstats.map Summary.fifos).sum % UINT_MOD ∧
    (main_loop env g flags directories).tstat.socks =
      ((main_loop env g flags directories).dstats.map Summary.socks).sum % UINT_MOD ∧
    (main_loop env g flags directories).tstat.size =
      ((main_loop env g flags directories).dstats.map Summary.size).sum % ULL_MOD ∧
    (main_loop env g flags directories).tstat.blocks =
      ((main_loop env g flags directories).dstats.map Summary.blocks).sum % ULL_MOD ∧
    total_entries (main_loop env g flags directories).tstat =
      (main_loop env g flags directories).tstat.entries % UINT_MOD ∧
    total_entries (main_loop env g flags directories).tstat =
      ((main_loop env g flags directories).dstats.map Summary.entries).sum % UINT_MOD ∧
    printed_total_entries (main_loop env g flags directories).tstat =
      to_int (main_loop env g flags directories).tstat.entries := by
  have h := main_loop_defined env g flags directories hres
  refine ⟨h, ?_⟩
  clear hres
  have key : (main_loop env g flags directories).dstats = directories.map (root_stats env g flags) ∧
    (main_loop env g flags directories).tstat.dirs =
      ((main_loop env g flags directories).dstats.map Summary.dirs).sum % UINT_MOD ∧
    (main_loop env g flags directories).tstat.files =
      ((main_loop env g flags directories).dstats.map Summary.files).sum % UINT_MOD ∧
    (main_loop env g flags directories).tstat.links =
      ((main_loop env g flags directories).dstats.map Summary.links).sum % UINT_MOD ∧
    (main_loop env g flags directories).tstat.fifos =
      ((main_loop env g flags directories).dstats.map Summary.fifos).sum % UINT_MOD ∧
    (main_loop env g flags directories).tstat.socks =
      ((main_loop env g flags directories).dstats.map Summary.socks).sum % UINT_MOD ∧
    (main_loop env g flags directories).tstat.size =
      ((main_loop env g flags directories).dstats.map Summary.size).sum % ULL_MOD ∧
    (main_loop env g flags directories).tstat.blocks =
      ((main_loop env g flags directories).dstats.map Summary.blocks).sum % ULL_MOD := by
    induction directories using List.reverseRecOn with
    | nil => simp [main_loop, Summary.zero]
    | append_singleton ds d ih =>
      rw [main_loop_append] at h ⊢
      obtain ⟨hm, ht, hds⟩ := main_step_defined env g flags _ d h
      obtain ⟨i0, i1, i2, i3, i4, i5, i6, i7⟩ := ih hm
      rw [ht, hds]
      simp only [aggregate, List.map_append, List.sum_append, List.map_cons, List.map_nil,
        List.sum_cons, List.sum_nil, Nat.add_zero]
      refine ⟨by rw [i0], ?_, ?_, ?_, ?_, ?_, ?_, ?_⟩
      · rw [i1, Nat.mod_add_mod]
      · rw [i2, Nat.mod_add_mod]
      · rw [i3, Nat.mod_add_mod]
      · rw [i4, Nat.mod_add_mod]
      · rw [i5, Nat.mod_add_mod]
      · rw [i6, Nat.mod_add_mod]
      · rw [i7, Nat.mod_add_mod]
  obtain ⟨k0, k1, k2, k3, k4, k5, k6, k7⟩ := key
  refine ⟨k0, k1, k2, k3, k4, k5, k6, k7, ?_, ?_, ?_⟩
  · unfold total_entries Summary.entries
    congr 1
    omega
  · rw [sum_entries]
    unfold total_entries
    rw [k1, k2, k3, k4, k5]
    unfold UINT_MOD
    omega
  · have he : total_entries (main_loop env g flags directories).tstat =
        (main_loop env g flags directories).tstat.entries % UINT_MOD := by
      unfold total_entries Summary.entries
      congr 1
      omega
    unfold printed_total_entries to_int
    rw [he, Nat.mod_mod]

/-- The example of two roots: 2 files and 1 directory, then 1 file, give 3 files and 1
directory. -/
theorem grand_total_witness :
    sample_main.tstat.files = 3 ∧ sample_main.tstat.dirs = 1 ∧
    total_entries sample_main.tstat = 4 ∧
    sample_main.defined = true ∧
    sample_main.tstat.files = (sample_main.dstats.map Summary.files).sum % UINT_MOD ∧
    sample_main.tstat.dirs = (sample_main.dstats.map Summary.dirs).sum % UINT_MOD :=
  have hval : sample_main.tstat.files = 3 ∧ sample_main.tstat.dirs = 1 ∧
      total_entries sample_main.tstat = 4 := by
    simp +decide [sample_main, main_loop, main_step, aggregate, process_dir_some, read_entries,
      read_loop, get_next, is_dot, qsort, dirent_compare, strcmp, cstr, sample_env,
      default_globals, regular, directory, Run.start, FsNode.d_name, FsNode.d_type, FsNode.lstat,
      FsNode.dir, fold_entry, visit, Summary.zero, ULL_MOD, UINT_MOD, List.orderedInsert, snprintf,
      total_entries]
  have h := grand_total sample_env default_globals 0
    [⟨cstr "A", some [regular "a" 2 8, regular "b" 3 8, directory "d" []]⟩,
     ⟨cstr "B", some [regular "c" 1 8]⟩] (by decide)
  ⟨hval.1, hval.2.1, hval.2.2, h.1, h.2.2.2.1, h.2.2.1⟩

/-! ## The order of a listing -/

theorem strcmp_swap (a b : CStr) : strcmp b a = -strcmp a b := by
  induction a generalizing b with
  | nil => cases b <;> simp [strcmp]
  | cons x s ih =>
    cases b with
    | nil => simp [strcmp]
    | cons y t =>
      by_cases h : x = y
      · subst h
        simp [strcmp, ih]
      · have h1 : ¬ y = x := fun e => h e.symm
        simp only [strcmp, h, h1, if_false]
        omega

theorem validName_cons {x : Nat} {s : CStr} (h : ValidName (x :: s)) : x ≠ 0 ∧ ValidName s :=
  ⟨h x (List.mem_cons_self _ _), fun c hc => h c (List.mem_cons_of_mem _ hc)⟩

/-- On names without NUL bytes, `strcmp` is negative exactly when the first name is smaller in
the byte-wise lexicographic order. -/
theorem strcmp_neg_iff (a b : CStr) (ha : ValidName a) (hb : ValidName b) :
    strcmp a b < 0 ↔ a < b := by
  induction a generalizing b with
  | nil =>
    cases b with
    | nil => simp [strcmp]
    | cons y t =>
      have hy := (validName_cons hb).1
      simp only [strcmp]
      constructor
      · intro _; exact List.Lex.nil
      · intro _; omega
  | cons x s ih =>
    cases b with
    | nil =>
      simp only [strcmp]
      constructor
      · intro h; omega
      · intro h; exact absurd h (List.Lex.not_nil_right _ _)
    | cons y t =>
      by_cases h : x = y
      · subst h
        simp only [strcmp, if_true]
        rw [ih t (validName_cons ha).2 (validName_cons hb).2]
        exact (List.Lex.cons_iff).symm
      · simp only [strcmp, h, if_false]
        constructor
        · intro hlt
          exact List.Lex.rel (by omega)
        · intro hlt
          cases hlt with
          | cons _ => exact absurd rfl h
          | rel hr => omega

theorem strcmp_nonpos_iff (a b : CStr) (ha : ValidName a) (hb : ValidName b) :
    strcmp a b ≤ 0 ↔ a ≤ b := by
  have h1 := strcmp_neg_iff b a hb ha
  rw [strcmp_swap a b] at h1
  constructor
  · intro h
    exact not_lt.1 (fun hlt => by have := h1.2 hlt; omega)
  · intro h
    by_contra hc
    exact absurd h (not_le.2 (h1.1 (by omega)))

/-- What `dirent_compare(a, b) <= 0` means. -/
theorem dirent_compare_nonpos_iff (a b : FsNode) :
    dirent_compare a b ≤ 0 ↔
      (a.d_type = DT_DIR ∧ b.d_type ≠ DT_DIR) ∨
      ((a.d_type = DT_DIR ↔ b.d_type = DT_DIR) ∧ strcmp a.d_name b.d_name ≤ 0) := by
  unfold dirent_compare
  by_cases ht : a.d_type = b.d_type
  · rw [if_neg (not_not.2 ht)]
    constructor
    · intro h; exact Or.inr ⟨by rw [ht], h⟩
    · rintro (⟨h1, h2⟩ | ⟨_, h⟩)
      · exact absurd (ht ▸ h1) h2
      · exact h
  · simp only [ne_eq, ht, not_false_eq_true, if_true]
    by_cases ha : a.d_type = DT_DIR
    · have hb : b.d_type ≠ DT_DIR := fun hb => ht (ha.trans hb.symm)
      simp [ha, hb]
    · by_cases hb : b.d_type = DT_DIR
      · simp [ha, hb]
      · simp [ha, hb]

theorem dirent_compare_total (a b : FsNode) (ha : ValidName a.d_name) (hb : ValidName b.d_name) :
    dirent_compare a b ≤ 0 ∨ dirent_compare b a ≤ 0 := by
  rw [dirent_compare_nonpos_iff, dirent_compare_nonpos_iff, strcmp_nonpos_iff _ _ ha hb,
    strcmp_nonpos_iff _ _ hb ha]
  rcases le_total a.d_name b.d_name with h | h <;>
    by_cases h1 : a.d_type = DT_DIR <;> by_cases h2 : b.d_type = DT_DIR <;> simp [h1, h2, h]

theorem dirent_compare_trans (a b c : FsNode) (ha : ValidName a.d_name) (hb : ValidName b.d_name)
    (hc : ValidName c.d_name) (hab : dirent_compare a b ≤ 0) (hbc : dirent_compare b c ≤ 0) :
    dirent_compare a c ≤ 0 := by
  rw [dirent_compare_nonpos_iff, strcmp_nonpos_iff _ _ ha hb] at hab
  rw [dirent_compare_nonpos_iff, strcmp_nonpos_iff _ _ hb hc] at hbc
  rw [dirent_compare_nonpos_iff, strcmp_nonpos_iff _ _ ha hc]
  rcases hab with ⟨h1, h2⟩ | ⟨h1, h2⟩ <;> rcases hbc with ⟨h3, h4⟩ | ⟨h3, h4⟩
  · exact absurd h3 h2
  · exact Or.inl ⟨h1, fun h => h2 (h3.2 h)⟩
  · exact Or.inl ⟨h1.2 h3, h4⟩
  · exact Or.inr ⟨h1.trans h3, le_trans h2 h4⟩

/-- Inserting into a sorted list keeps it sorted when the relation is total and transitive on
the elements involved. -/
theorem pairwise_orderedInsert {α : Type} (r : α → α → Prop) [DecidableRel r] (S : α → Prop)
    (htot : ∀ a b, S a → S b → r a b ∨ r b a)
    (htr : ∀ a b c, S a → S b → S c → r a b → r b c → r a c)
    (a : α) (l : List α) (ha : S a) (hl : ∀ x ∈ l, S x) (h : l.Pairwise r) :
    (l.orderedInsert r a).Pairwise r := by
  induction l with
  | nil => simp
  | cons b l ih =>
    have hb : S b := hl b (List.mem_cons_self _ _)
    have hl1 : ∀ x ∈ l, S x := fun x hx => hl x (List.mem_cons_of_mem _ hx)
    rw [List.pairwise_cons] at h
    unfold List.orderedInsert
    split
    · rename_i hab
      rw [List.pairwise_cons]
      refine ⟨?_, List.pairwise_cons.2 h⟩
      intro x hx
      rcases List.mem_cons.1 hx with hx | hx
      · rw [hx]; exact hab
      · exact htr a b x ha hb (hl1 x hx) hab (h.1 x hx)
    · rename_i hab
      rw [List.pairwise_cons]
      refine ⟨?_, ih hl1 h.2⟩
      intro x hx
      rcases (List.mem_orderedInsert r).1 hx with hx | hx
      · rw [hx]
        exact (htot a b ha hb).resolve_left hab
      · exact h.1 x hx

theorem pairwise_insertionSort {α : Type} (r : α → α → Prop) [DecidableRel r] (S : α → Prop)
    (htot : ∀ a b, S a → S b → r a b ∨ r b a)
    (htr : ∀ a b c, S a → S b → S c → r a b → r b c → r a c)
    (l : List α) (hl : ∀ x ∈ l, S x) : (l.insertionSort r).Pairwise r := by
  induction l with
  | nil => simp
  | cons a l ih =>
    have hl1 : ∀ x ∈ l, S x := fun x hx => hl x (List.mem_cons_of_mem _ hx)
    unfold List.insertionSort
    exact pairwise_orderedInsert r S htot htr a _ (hl a (List.mem_cons_self _ _))
      (fun x hx => hl1 x ((List.mem_insertionSort r).1 hx)) (ih hl1)

/-- The array that `qsort` leaves behind is in the order of `dirent_compare`. -/
theorem qsort_dirent_sorted (l : List FsNode) (hl : ∀ e ∈ l, ValidName e.d_name) :
    (qsort dirent_compare l).Pairwise (fun a b => dirent_compare a b ≤ 0) :=
  pairwise_insertionSort _ (fun e => ValidName e.d_name) dirent_compare_total
    dirent_compare_trans l hl

/-- Any arrangement of entries with distinct valid names that is in the order of
`dirent_compare` has the entries with `d_type == DT_DIR` first and each of the two classes in
ascending order of the names. -/
theorem direntOrdered_of_sorted (l : List FsNode) (hv : ∀ e ∈ l, ValidName e.d_name)
    (hd : (l.map FsNode.d_name).Nodup)
    (hs : l.Pairwise (fun a b => dirent_compare a b ≤ 0)) : l.Pairwise DirentOrdered := by
  have hne : l.Pairwise (fun a b => a.d_name ≠ b.d_name) := by
    rw [List.Nodup, List.pairwise_map] at hd
    exact hd
  refine (List.Pairwise.and_mem.1 (hs.and hne)).imp ?_
  rintro a b ⟨ha, hb, hab, hn⟩
  rw [dirent_compare_nonpos_iff, strcmp_nonpos_iff _ _ (hv a ha) (hv b hb)] at hab
  have hlt : a.d_name ≤ b.d_name → a.d_name < b.d_name := fun h => lt_of_le_of_ne h hn
  rcases hab with ⟨h1, h2⟩ | ⟨h1, h2⟩
  · exact ⟨fun h => absurd h h2, fun _ h => absurd h h2, fun h _ => absurd h1 h⟩
  · exact ⟨h1.2, fun _ _ => hlt h2, fun _ _ => hlt h2⟩

/-- Where `readdir` reports the type of both entries as `lstat` does, the order of the sorted
array is the order of the specification. -/
theorem listedBefore_of_direntOrdered (a b : FsNode) (ha : TypeReported a) (hb : TypeReported b)
    (h : DirentOrdered a b) : ListedBefore a b := by
  unfold TypeReported at ha hb
  obtain ⟨h1, h2, h3⟩ := h
  refine ⟨fun hbd => ha.1 (h1 (hb.2 hbd)), fun had hbd => h2 (ha.2 had) (hb.2 hbd), ?_⟩
  intro had hbd
  refine h3 (fun hd => ?_) (fun hd => ?_)
  · rw [ha.1 hd] at had; exact absurd had (by decide)
  · rw [hb.1 hd] at hbd; exact absurd hbd (by decide)

/-! ## The order of the printed rows -/

theorem own_rows_append (n : Nat) (out : List Row) (row : Row) :
    own_rows n (out ++ [row]) =
      own_rows n out ++ (if row.path.length = n then [row.path] else []) := by
  unfold own_rows
  rw [List.filter_append, List.map_append]
  by_cases h : row.path.length = n
  · simp [h]
  · simp [h]

theorem visit_defined (env : Env) (dn : List CStr) (pstr : CStr) (descend : FsNode → Run → Run)
    (r : Run) (target : FsNode) (h : (visit env dn pstr descend r target).defined = true) :
    r.defined = true := by
  by_cases hr : r.defined = false
  · unfold visit at h
    rw [if_pos hr] at h
    exact h
  · simpa using hr

theorem foldl_visit_defined (env : Env) (dn : List CStr) (pstr : CStr)
    (descend : FsNode → Run → Run) (l : List FsNode) (r : Run) (h : (l.foldl (visit env dn pstr descend) r).defined = true) :
    r.defined = true := by
  induction l generalizing r with
  | nil => exact h
  | cons e l ih => exact visit_defined env dn pstr descend r e (ih _ h)

/-- What one loop iteration that ends in a defined run adds to the rows with `n` components,
when the recursive call adds none. -/
theorem visit_own_rows (env : Env) (dn : List CStr) (pstr : CStr) (descend : FsNode → Run → Run)
    (n : Nat) (hdesc : ∀ target r1, own_rows n (descend target r1).out = own_rows n r1.out)
    (r : Run) (target : FsNode) (h : (visit env dn pstr descend r target).defined = true) :
    own_rows n (visit env dn pstr descend r target).out =
      own_rows n r.out ++ (if dn.length + 1 = n then [dn ++ [target.d_name]] else []) := by
  have hlen : (dn ++ [target.d_name]).length = dn.length + 1 := by simp
  unfold visit at h ⊢
  by_cases hr : r.defined = false
  · rw [if_pos hr] at h
    rw [hr] at h
    simp at h
  · rw [if_neg hr] at h ⊢
    cases hl : target.lstat with
    | none => simp [hl] at h
    | some st =>
      simp only [hl] at h ⊢
      cases hu : env.getpwuid st.st_uid with
      | none => simp [hu] at h
      | some user =>
        cases hg : env.getgrgid st.st_gid with
        | none => simp [hu, hg] at h
        | some group =>
          simp only [hu, hg] at h ⊢
          have hrow : own_rows n (r.out ++ [(⟨dn ++ [target.d_name],
              display_name pstr target.d_name, user, group, st.st_size, st.st_blocks,
              filetype_char st.st_mode⟩ : Row)]) =
              own_rows n r.out ++ (if dn.length + 1 = n then [dn ++ [target.d_name]] else []) := by
            rw [own_rows_append]
            simp only [hlen]
          by_cases hd : S_ISDIR st.st_mode = true
          · rw [if_pos hd, hdesc]
            exact hrow
          · rw [if_neg hd]
            exact hrow

theorem foldl_visit_own_rows (env : Env) (dn : List CStr) (pstr : CStr)
    (descend : FsNode → Run → Run)
    (hdesc : ∀ target r1,
      own_rows (dn.length + 1) (descend target r1).out = own_rows (dn.length + 1) r1.out)
    (l : List FsNode) (r : Run) (h : (l.foldl (visit env dn pstr descend) r).defined = true) :
    own_rows (dn.length + 1) (l.foldl (visit env dn pstr descend) r).out =
      own_rows (dn.length + 1) r.out ++ l.map (fun e => dn ++ [e.d_name]) := by
  induction l generalizing r with
  | nil => simp
  | cons e l ih =>
    rw [List.foldl_cons] at h ⊢
    have h1 := foldl_visit_defined env dn pstr descend l _ h
    rw [ih _ h, visit_own_rows env dn pstr descend _ hdesc r e h1, if_pos rfl]
    simp

/-- A call of `process_dir` on the directory `dn` prints no row whose path has at most as many
components as `dn`. -/
theorem process_dir_own_rows_above (env : Env) (g : Globals) (flags n : Nat)
    (dir : Option (List FsNode)) (dn : List CStr) (pstr : CStr) (r : Run) (hn : n ≤ dn.length) :
    own_rows n (process_dir env g dir dn pstr flags r).out = own_rows n r.out := by
  refine process_dir_induct env g flags
    (fun _ dn _ r r1 => n ≤ dn.length → own_rows n r1.out = own_rows n r.out)
    (fun _ _ _ _ => rfl) (fun _ _ _ _ _ _ => rfl) ?_ dir dn pstr r hn
  intro stream dn pstr r descend _ hdesc hn
  refine foldl_visit_invariant (fun r1 => own_rows n r1.out = own_rows n r.out) _ ?_ _ r rfl
  intro r1 target hr1
  have hlen : (dn ++ [target.d_name]).length = dn.length + 1 := by simp
  have hd : ∀ t r2, own_rows n (descend t r2).out = own_rows n r2.out := fun t r2 =>
    hdesc t r2 (by rw [List.length_append]; omega)
  unfold visit
  split
  · exact hr1
  · split
    · exact hr1
    · split
      · have hrow : ∀ row : Row, row.path = dn ++ [target.d_name] →
            own_rows n (r1.out ++ [row]) = own_rows n r.out := by
          intro row hrow
          rw [own_rows_append, hrow, hlen, if_neg (by omega), List.append_nil, hr1]
        split
        · rw [hd]
          exact hrow _ rfl
        · exact hrow _ rfl
      · exact hr1

/-- A call of `process_dir` within the depth limit that ends in a defined run has printed the
rows of the entries of its directory in the order of the sorted array. -/
theorem process_dir_own_rows (env : Env) (g : Globals) (flags : Nat) (stream : List FsNode)
    (dn : List CStr) (pstr : CStr) (r : Run) (hd : pstr.length / 2 ≤ g.max_depth)
    (h : (process_dir env g (some stream) dn pstr flags r).defined = true) :
    own_rows (dn.length + 1) (process_dir env g (some stream) dn pstr flags r).out =
      own_rows (dn.length + 1) r.out ++
        (qsort dirent_compare (read_entries stream)).map (fun e => dn ++ [e.d_name]) := by
  rw [process_dir_some, if_neg (by omega)] at h ⊢
  refine foldl_visit_own_rows env dn pstr _ ?_ _ r h
  intro target r1
  exact process_dir_own_rows_above env g flags _ _ _ _ r1 (by simp)

/-- C1 as stated fails: on a file system whose `readdir` reports `DT_UNKNOWN`, the directory
`zdir` and the file `afile` have valid, distinct names, `dirent_compare` orders them by name
alone, and `process_dir` prints the row of the file before the row of the directory. -/
theorem unknown_type_order :
    (∀ e ∈ read_entries unknown_stream, ValidName e.d_name) ∧
    ((read_entries unknown_stream).map FsNode.d_name).Nodup ∧
    (qsort dirent_compare (read_entries unknown_stream)).map FsNode.d_name =
      [cstr "afile", cstr "zdir"] ∧
    unknown_run.defined = true ∧
    unknown_run.out.map (fun row => (row.name, row.type)) =
      [(cstr "  afile", 32), (cstr "  zdir", 100)] ∧
    ¬ (qsort dirent_compare (read_entries unknown_stream)).Pairwise ListedBefore := by
  refine ⟨by decide, by decide, by decide, ?_, ?_, ?_⟩
  · simp +decide [unknown_run, unknown_stream, process_dir_some, process_dir_none, read_entries,
      read_loop, get_next, is_dot, qsort, dirent_compare, strcmp, cstr, sample_env,
      default_globals, Run.start, FsNode.d_name, FsNode.d_type, FsNode.lstat, FsNode.dir, visit,
      snprintf, List.orderedInsert]
  · simp +decide [unknown_run, unknown_stream, process_dir_some, process_dir_none, read_entries,
      read_loop, get_next, is_dot, qsort, dirent_compare, strcmp, cstr, sample_env,
      default_globals, Run.start, FsNode.d_name, FsNode.d_type, FsNode.lstat, FsNode.dir, visit,
      snprintf, List.orderedInsert, display_name, filetype_char, ellipsis]
  · have hsorted : qsort dirent_compare (read_entries unknown_stream) =
        [.mk (cstr "afile") 0 (some ⟨0o100644, 0, 0, 1, 8⟩) none,
         .mk (cstr "zdir") 0 (some ⟨0o040755, 0, 0, 4096, 8⟩) (some [])] := by
      simp +decide [unknown_stream, read_entries, read_loop, get_next, is_dot, qsort,
        dirent_compare, strcmp, cstr, FsNode.d_name, FsNode.d_type, List.orderedInsert]
    rw [hsorted]
    intro h
    have h1 := (List.pairwise_cons.1 h).1 _ (List.mem_singleton.2 rfl)
    exact absurd (h1.1 (by decide)) (by decide)

/-- C1, amended: when the entries collected from a directory have valid, pairwise distinct names
and `readdir` reports `d_type == DT_DIR` for exactly those that are directories, the array that
`process_dir` loops over after `qsort` with `dirent_compare` holds the same entries, every entry
that is a directory comes before every entry that is not, and the directories, like the
non-directories, are in ascending byte-wise order of their names; and every call of
`process_dir` on the directory, within the depth limit and ending in a defined run, prints the
rows of these entries in the order of that array. -/
theorem sorted_order (stream : List FsNode)
    (hvalid : ∀ e ∈ read_entries stream, ValidName e.d_name)
    (hdistinct : ((read_entries stream).map FsNode.d_name).Nodup)
    (hreported : ∀ e ∈ read_entries stream, TypeReported e) :
    (qsort dirent_compare (read_entries stream)).Perm (read_entries stream) ∧
    (qsort dirent_compare (read_entries stream)).Pairwise ListedBefore ∧
    (∀ (env : Env) (g : Globals) (dn : List CStr) (pstr : CStr) (flags : Nat) (r : Run),
      pstr.length / 2 ≤ g.max_depth →
      (process_dir env g (some stream) dn pstr flags r).defined = true →
      own_rows (dn.length + 1) (process_dir env g (some stream) dn pstr flags r).out =
        own_rows (dn.length + 1) r.out ++
          (qsort dirent_compare (read_entries stream)).map (fun e => dn ++ [e.d_name])) := by
  have hp := qsort_perm dirent_compare (read_entries stream)
  have hsorted : (qsort dirent_compare (read_entries stream)).Pairwise DirentOrdered :=
    direntOrdered_of_sorted _ (fun e he => hvalid e (hp.mem_iff.1 he))
      ((hp.map FsNode.d_name).nodup_iff.2 hdistinct) (qsort_dirent_sorted _ hvalid)
  refine ⟨hp, (List.Pairwise.and_mem.1 hsorted).imp ?_, ?_⟩
  · rintro a b ⟨ha, hb, hab⟩
    exact listedBefore_of_direntOrdered a b (hreported a (hp.mem_iff.1 ha))
      (hreported b (hp.mem_iff.1 hb)) hab
  · intro env g dn pstr flags r hd h
    exact process_dir_own_rows env g flags stream dn pstr r hd h

/-- The listing of `mixed_stream`: the directories `x`, `y`, then the files `a`, `b`. -/
theorem sorted_order_witness :
    (∀ e ∈ read_entries mixed_stream, ValidName e.d_name) ∧
    ((read_entries mixed_stream).map FsNode.d_name).Nodup ∧
    (∀ e ∈ read_entries mixed_stream, TypeReported e) ∧
    (qsort dirent_compare (read_entries mixed_stream)).map FsNode.d_name =
      [cstr "x", cstr "y", cstr "a", cstr "b"] ∧
    (qsort dirent_compare (read_entries mixed_stream)).Perm (read_entries mixed_stream) ∧
    (qsort dirent_compare (read_entries mixed_stream)).Pairwise ListedBefore ∧
    (∀ (env : Env) (g : Globals) (dn : List CStr) (pstr : CStr) (flags : Nat) (r : Run),
      pstr.length / 2 ≤ g.max_depth →
      (process_dir env g (some mixed_stream) dn pstr flags r).defined = true →
      own_rows (dn.length + 1) (process_dir env g (some mixed_stream) dn pstr flags r).out =
        own_rows (dn.length + 1) r.out ++
          (qsort dirent_compare (read_entries mixed_stream)).map (fun e => dn ++ [e.d_name])) :=
  ⟨by decide, by decide, by decide, by decide,
    sorted_order mixed_stream (by decide) (by decide) (by decide)⟩

end Dirtree
